import Mathlib

/-!
Shallow embedding of the Markdown-to-LaTeX converter in `src/main.rs` of the
`markdown-latex` repository, together with proofs about the claims of its
specification.  Strings are modelled as `List Char`; each definition mirrors
one Rust function (the source function is named in its doc comment).  The
Markdown structural parser (the external crate `pulldown_cmark`) is out of
scope per the specification; it is modelled at its interface as a function
from text to a list of structural events, passed as a parameter to the
pipeline, and the concrete event lists used by the theorems are modelled from
the specification's interface contract.
-/

namespace MdLatex

/-- Shorthand turning a Lean string literal into the `List Char` model. -/
def str (s : String) : List Char := s.data

/-- White_Space test matching Rust `char::is_whitespace` (Unicode White_Space). -/
def isWsChar (c : Char) : Bool :=
  c = ' ' || c = '\t' || c = '\n' || c = '\x0b' || c = '\x0c' || c = '\r' ||
  c = '\x85' || c = '\xa0' || c = '\u1680' ||
  ('\u2000' ≤ c && c ≤ '\u200a') ||
  c = '\u2028' || c = '\u2029' || c = '\u202f' || c = '\u205f' || c = '\u3000'

/-- Rust `str::trim`: drop whitespace from both ends. -/
def trimChars (s : List Char) : List Char :=
  ((s.dropWhile isWsChar).reverse.dropWhile isWsChar).reverse

/-- Split a text at every newline character, keeping all pieces
(`n` newlines produce `n + 1` pieces). -/
def splitNl : List Char → List (List Char)
  | [] => [[]]
  | c :: cs =>
    if c = '\n' then [] :: splitNl cs
    else
      match splitNl cs with
      | [] => [[c]]
      | p :: ps => (c :: p) :: ps

/-- Drop one trailing carriage return, used for the `\r\n` line terminator. -/
def rstripCr (l : List Char) : List Char :=
  if l.getLast? = some '\r' then l.dropLast else l

/-- Rust `str::lines`: split at `\n` or `\r\n`; a final line terminator does
not produce a trailing empty line; a last piece without terminator is kept
as-is (its `\r`, if any, is not stripped). -/
def linesOf (s : List Char) : List (List Char) :=
  let ps := splitNl s
  let front := ps.dropLast.map rstripCr
  match ps.getLast? with
  | some [] => front
  | none => front
  | some last => front ++ [last]

/-- Rust `str::trim_start_matches`: repeatedly strip the pattern from the
start while it is a prefix (fuelled; the fuel `s.length` always suffices
because each strip removes at least one character). -/
def trimStartMatchesGo (pat : List Char) : Nat → List Char → List Char
  | 0, s => s
  | fuel + 1, s =>
    if !pat.isEmpty && pat.isPrefixOf s then
      trimStartMatchesGo pat fuel (s.drop pat.length)
    else s

/-- Rust `str::trim_start_matches` wrapper with adequate fuel. -/
def trimStartMatches (pat s : List Char) : List Char :=
  trimStartMatchesGo pat s.length s

/-- Rust `str::replace`: replace every non-overlapping occurrence of `pat`
by `repl`, scanning left to right (fuelled; `s.length` fuel suffices since
every step consumes at least one character).  The tables of the program never
contain an empty key, so the empty-pattern case is immaterial. -/
def listReplaceGo (pat repl : List Char) : Nat → List Char → List Char
  | _, [] => []
  | 0, s => s
  | fuel + 1, c :: cs =>
    if !pat.isEmpty && pat.isPrefixOf (c :: cs) then
      repl ++ listReplaceGo pat repl fuel ((c :: cs).drop pat.length)
    else c :: listReplaceGo pat repl fuel cs

/-- Rust `str::replace` wrapper with adequate fuel. -/
def listReplace (pat repl s : List Char) : List Char :=
  listReplaceGo pat repl s.length s

/-- Source `apply_text_replacements`: fold `replaced.replace(md, latex)` over
the table in iteration order.  The source table is a `HashMap` whose
iteration order is unspecified, so the table (with its order) is an explicit
list parameter here. -/
def apply_text_replacements (table : List (List Char × List Char))
    (text : List Char) : List Char :=
  table.foldl (fun acc p => listReplace p.1 p.2 acc) text

/-- Source `apply_text_replacements_inversedly`: like
`apply_text_replacements` but replacing each table value by its key. -/
def apply_text_replacements_inversedly (table : List (List Char × List Char))
    (text : List Char) : List Char :=
  table.foldl (fun acc p => listReplace p.2 p.1 acc) text

/-- Source `PRE_REPLACEMENT_TABLE` (one fixed iteration order of the
`HashMap`): citation and cross-reference shorthand. -/
def PRE_REPLACEMENT_TABLE : List (List Char × List Char) :=
  [(str "[`", str "\\cite\x7b"), (str "`]", str "\x7d"),
   (str "[*", str "\\ref\x7b"), (str "*]", str "\x7d")]

/-- Source `IN_TEXT_REPLACEMENT_TABLE` (one fixed iteration order of the
`HashMap`): LaTeX-reserved character escaping. -/
def IN_TEXT_REPLACEMENT_TABLE : List (List Char × List Char) :=
  [(str "&", str "\\&"), (str "%", str "\\%"), (str "_", str "\\_"),
   (str "#", str "\\#"), (str "\x7b", str "\\\x7b"), (str "\x7d", str "\\\x7d")]

/-- The keys of the in-text table, in the order written in the source. -/
def inTextKeys : List Char := ['&', '%', '_', '#', '\x7b', '\x7d']

/-- The in-text table entry for one key: escape the character with a
backslash. -/
def inTextEntry (c : Char) : List Char × List Char := ([c], ['\\', c])

/-- Pointwise simultaneous escaping of the keys in `l` (specification of what
any iteration order of the in-text table computes). -/
def escOf (l : List Char) (d : Char) : List Char :=
  if d ∈ l then ['\\', d] else [d]

/-- Concatenation of the images of a character function over a text
(a character-level flat map, used to state replacement lemmas). -/
def fm (f : Char → List Char) : List Char → List Char
  | [] => []
  | c :: cs => f c ++ fm f cs

/-- Source `preprocess`, equation-body collection loop: consume lines into the
body until one trims to `$$` (that line is consumed and discarded); returns
the body text and the remaining lines. -/
def collectEquation : List (List Char) → List Char × List (List Char)
  | [] => ([], [])
  | l :: ls =>
    if trimChars l = str "$$" then ([], ls)
    else
      let p := collectEquation ls
      (l ++ '\n' :: p.1, p.2)

/-- Join lines back into text, terminating every line with a newline (the
shape `push_str(line); push('\n')` used throughout `preprocess`). -/
def joinNl : List (List Char) → List Char
  | [] => []
  | l :: ls => l ++ '\n' :: joinNl ls

/-- Source `preprocess`, main line loop (fuelled by the number of lines;
every iteration consumes at least one line).  Note two source behaviours
reproduced faithfully: the non-empty-label fence is built with
`format!("``` block_equation{}\n", label)` whose `\x7b\x7d` is a format
placeholder (so no braces appear around the label), and the raw-LaTeX branch
copies every remaining line verbatim because its loop never breaks at the
closing fence. -/
def preprocessGo (tbl : List (List Char × List Char)) :
    Nat → List (List Char) → List Char
  | _, [] => []
  | 0, _ => []
  | fuel + 1, line :: rest =>
    let trimmed := trimChars line
    if (str "$$").isPrefixOf trimmed then
      let label := trimChars (trimStartMatches (str "$$") trimmed)
      let p := collectEquation rest
      (if label = [] then str "``` block_equation\x7b\x7d\n"
       else (str "``` block_equation" ++ label) ++ ['\n'])
        ++ p.1 ++ str "```\n" ++ preprocessGo tbl fuel p.2
    else if (str "```latex raw").isPrefixOf trimmed then
      (line ++ ['\n']) ++ joinNl rest
    else
      (apply_text_replacements tbl line ++ ['\n']) ++ preprocessGo tbl fuel rest

/-- Source `preprocess` with an explicit pre-pass table (iteration order). -/
def preprocessT (tbl : List (List Char × List Char)) (s : List Char) :
    List Char :=
  preprocessGo tbl (linesOf s).length (linesOf s)

/-- Source `preprocess` with the source-order pre-pass table. -/
def preprocess (s : List Char) : List Char :=
  preprocessT PRE_REPLACEMENT_TABLE s

/-- `pulldown_cmark::Alignment` for table columns. -/
inductive Alignment
  | noneA | left | center | right
deriving DecidableEq

/-- `pulldown_cmark::HeadingLevel`. -/
inductive HeadingLevel
  | h1 | h2 | h3 | h4 | h5 | h6
deriving DecidableEq

/-- `pulldown_cmark::CodeBlockKind`. -/
inductive CodeBlockKind
  | indented
  | fenced (info : List Char)
deriving DecidableEq

/-- Source `CustomCodeBlockKind`. -/
inductive CBKind
  | noneK
  | codeK (info : Option (List Char))
  | rawLatex
  | equation
deriving DecidableEq

/-- `pulldown_cmark::Tag` (the container constructs the translator inspects;
containers it ignores are listed so the default arm is modelled). -/
inductive Tag
  | paragraph
  | heading (level : HeadingLevel) (id : Option (List Char))
      (classes : List (List Char))
  | table (aligns : List Alignment)
  | tableHead
  | tableRow
  | tableCell
  | emphasis
  | strong
  | link (url : List Char)
  | image (url : List Char)
  | list (ordered : Option Nat)
  | item
  | codeBlock (kind : CodeBlockKind)
  | blockQuote
  | strikethrough
  | footnoteDefinition (label : List Char)
deriving DecidableEq

/-- `pulldown_cmark::Event` (the structural event vocabulary of the external
parser; `endE` models `Event::End`). -/
inductive Event
  | start (t : Tag)
  | endE (t : Tag)
  | text (s : List Char)
  | code (s : List Char)
  | html (s : List Char)
  | footnoteReference (s : List Char)
  | taskListMarker (b : Bool)
  | rule
  | softBreak
  | hardBreak
deriving DecidableEq

/-- Translator carry-over state (`convert_markdown_to_latex` local mutables;
the unused underscore-prefixed flags of the source are omitted since they
never influence the output). -/
structure TState where
  inside_image : Bool
  image_url : List Char
  image_caption : List Char
  codeblock_status : CBKind
  first_cell : Bool
  is_add_heading_to_contents : Bool
  heading_content_string : Option (List Char)
  output : List Char

/-- Initial translator state (source local variable initialisers). -/
def initState : TState :=
  { inside_image := false, image_url := [], image_caption := [],
    codeblock_status := CBKind.noneK, first_cell := true,
    is_add_heading_to_contents := false, heading_content_string := none,
    output := [] }

/-- Column format fragment per alignment (source `Start(Tag::Table)` match). -/
def alignSpec : Alignment → List Char
  | Alignment.left => str ">\x7b\\raggedright\\arraybackslash\x7dX"
  | Alignment.center => str ">\x7b\\centering\\arraybackslash\x7dX"
  | Alignment.right => str ">\x7b\\raggedleft\\arraybackslash\x7dX"
  | Alignment.noneA => str ">\x7b\\centering\\arraybackslash\x7dX"

/-- Concatenate a list of texts (source `.collect::<String>()`). -/
def concatAll : List (List Char) → List Char
  | [] => []
  | l :: ls => l ++ concatAll ls

/-- Sectioning command base name per heading level (source
`Start(Tag::Heading)` match; `H6` falls to the `_ => "textbf"` arm). -/
def headingBase : HeadingLevel → List Char
  | HeadingLevel.h1 => str "chapter"
  | HeadingLevel.h2 => str "section"
  | HeadingLevel.h3 => str "subsection"
  | HeadingLevel.h4 => str "subsubsection"
  | HeadingLevel.h5 => str "paragraph"
  | HeadingLevel.h6 => str "textbf"

/-- Source fence-info tokenisation: `split(" ")` then drop empty tokens. -/
def splitSpace (s : List Char) : List (List Char) :=
  (s.splitOn ' ').filter (fun t => !t.isEmpty)

/-- Lazy regex tail `(.*?)\x7d` of `block_equation\\\x7b(.*?)\\\x7d`: the capture
runs to the first closing brace; `.` does not cross a newline. -/
def findCloserBrace : List Char → Option (List Char)
  | [] => none
  | c :: cs =>
    if c = '\x7d' then some []
    else if c = '\n' then none
    else (findCloserBrace cs).map (fun t => c :: t)

/-- First match of the unanchored regex `block_equation\\\x7b(.*?)\\\x7d` inside a
fence-info token, returning the capture. -/
def findBlockEq : List Char → Option (List Char)
  | [] => none
  | c :: cs =>
    if (str "block_equation\x7b").isPrefixOf (c :: cs) then
      match findCloserBrace ((c :: cs).drop 15) with
      | some inner => some inner
      | none => findBlockEq cs
    else findBlockEq cs

/-- Source `handle_code_block_start`: returns the text to append to the
output and the resulting `CustomCodeBlockKind`. -/
def handle_code_block_start : CodeBlockKind → List Char × CBKind
  | CodeBlockKind.fenced lang =>
    let tags := splitSpace lang
    match tags.findSome? findBlockEq with
    | some name =>
      ((str "\\begin\x7bequation\x7d\n")
        ++ (if name.isEmpty then []
            else (str "\\label\x7beq:" ++ name) ++ str "\x7d\n"),
       CBKind.equation)
    | none =>
      if (str "latex") ∈ tags ∧ (str "raw") ∈ tags then ([], CBKind.rawLatex)
      else (str "\\begin\x7blstlisting\x7d\n", CBKind.codeK (some lang))
  | CodeBlockKind.indented => ([], CBKind.codeK none)

/-- Text appended at `End(Tag::CodeBlock)` per code-block kind (the inner
match of that arm of the translator). -/
def closeCodeBlock : CBKind → List Char
  | CBKind.noneK => []
  | CBKind.codeK _ => str "\\end\x7blstlisting\x7d\n\n"
  | CBKind.rawLatex => []
  | CBKind.equation => str "\\end\x7bequation\x7d\n\n"

/-- One step of the translator's event loop (the big `match event` of
`convert_markdown_to_latex`); `none` models the panic of
`heading_content_string.as_ref().unwrap()` on a `None` value. -/
def stepEvent (st : TState) (e : Event) : Option TState :=
  match e with
  | Event.start (Tag.table aligns) =>
    let colFormat :=
      concatAll (aligns.map (fun a => '|' :: alignSpec a)) ++ ['|']
    some { st with
      output := st.output
        ++ ((str "\\begin\x7btabularx\x7d\x7b\\textwidth\x7d\x7b" ++ colFormat)
            ++ str "\x7d \\hline\n") }
  | Event.endE (Tag.table _) =>
    some { st with output := st.output ++ str "\\end\x7btabularx\x7d\n\n" }
  | Event.start Tag.tableHead => some { st with first_cell := true }
  | Event.endE Tag.tableHead =>
    some { st with output := st.output ++ str " \\\\ \\hline\n" }
  | Event.start Tag.tableRow => some { st with first_cell := true }
  | Event.endE Tag.tableRow =>
    some { st with output := st.output ++ str " \\\\ \\hline\n" }
  | Event.start Tag.tableCell =>
    some { st with
      output := st.output ++ (if st.first_cell then [] else str " & "),
      first_cell := false }
  | Event.endE Tag.tableCell => some st
  | Event.start (Tag.heading lvl _ classes) =>
    let base := headingBase lvl
    let base := if classes.contains (str "unnumbered") then base ++ ['*']
      else base
    some { st with
      output := st.output ++ ('\\' :: (base ++ ['\x7b'])),
      is_add_heading_to_contents :=
        st.is_add_heading_to_contents || classes.contains (str "add-contents") }
  | Event.endE (Tag.heading _ _ _) =>
    let o := st.output ++ str "\x7d\n"
    if st.is_add_heading_to_contents then
      match st.heading_content_string with
      | none => none
      | some hc =>
        some { st with
          output := o ++ ((str "\\addcontentsline\x7btoc\x7d\x7bchapter\x7d\x7b" ++ hc)
            ++ str "\x7d\n") ++ ['\n'],
          is_add_heading_to_contents := false,
          heading_content_string := none }
    else some { st with output := o ++ ['\n'] }
  | Event.start Tag.paragraph => some st
  | Event.endE Tag.paragraph =>
    some { st with output := st.output ++ str "\n\n" }
  | Event.text t =>
    if st.inside_image then
      some { st with image_caption := st.image_caption ++ t }
    else if st.codeblock_status ≠ CBKind.noneK then
      some { st with output := st.output ++ t }
    else
      let replaced := apply_text_replacements IN_TEXT_REPLACEMENT_TABLE t
      some { st with
        heading_content_string :=
          if st.is_add_heading_to_contents then some replaced
          else st.heading_content_string,
        output := st.output ++ replaced }
  | Event.start Tag.emphasis =>
    some { st with output := st.output ++ str "\\textit\x7b" }
  | Event.endE Tag.emphasis =>
    some { st with output := st.output ++ ['\x7d'] }
  | Event.start Tag.strong =>
    some { st with output := st.output ++ str "\\textbf\x7b" }
  | Event.endE Tag.strong =>
    some { st with output := st.output ++ ['\x7d'] }
  | Event.start (Tag.link url) =>
    some { st with output := st.output ++ ((str "\\href\x7b" ++ url) ++ str "\x7d\x7b") }
  | Event.endE (Tag.link _) =>
    some { st with output := st.output ++ ['\x7d'] }
  | Event.start (Tag.image url) =>
    some { st with inside_image := true, image_url := url }
  | Event.endE (Tag.image _) =>
    some { st with
      output := st.output ++ (str "\\begin\x7bfigure\x7d[htbp]\n"
        ++ ((str "\\centering\n\\includegraphics[width=0.8\\textwidth]\x7b"
              ++ st.image_url) ++ str "\x7d\n")
        ++ ((str "\\caption\x7b" ++ st.image_caption) ++ str "\x7d\n")
        ++ ((str "\\label\x7bfig:" ++ st.image_url) ++ str "\x7d\n")
        ++ str "\\end\x7bfigure\x7d\n"),
      inside_image := false, image_url := [], image_caption := [] }
  | Event.start (Tag.list (some _)) =>
    some { st with output := st.output ++ str "\\begin\x7benumerate\x7d\n" }
  | Event.start (Tag.list none) =>
    some { st with output := st.output ++ str "\\begin\x7bitemize\x7d\n" }
  | Event.endE (Tag.list (some _)) =>
    some { st with output := st.output ++ str "\\end\x7benumerate\x7d\n" }
  | Event.endE (Tag.list none) =>
    some { st with output := st.output ++ str "\\end\x7bitemize\x7d\n" }
  | Event.start Tag.item =>
    some { st with output := st.output ++ str "\\item " }
  | Event.endE Tag.item =>
    some { st with output := st.output ++ ['\n'] }
  | Event.start (Tag.codeBlock k) =>
    let p := handle_code_block_start k
    some { st with output := st.output ++ p.1, codeblock_status := p.2 }
  | Event.endE (Tag.codeBlock _) =>
    some { st with
      output := st.output ++ closeCodeBlock st.codeblock_status,
      codeblock_status := CBKind.noneK }
  | Event.code c =>
    some { st with
      output := st.output
        ++ ((str "\\texttt\x7b"
              ++ apply_text_replacements IN_TEXT_REPLACEMENT_TABLE c)
            ++ str "\x7d") }
  | Event.rule =>
    some { st with output := st.output ++ str "\\hrulefill\n" }
  | Event.softBreak =>
    some { st with output := st.output ++ ['\n'] }
  | Event.hardBreak =>
    some { st with output := st.output ++ str "\\\\\n" }
  | _ => some st

/-- The translator's event loop: fold `stepEvent` over the event sequence;
`none` models a panic. -/
def translate (events : List Event) : Option (List Char) :=
  Option.map TState.output (List.foldlM stepEvent initState events)

/-- The inverse in-text replacement used by `inversedly_replace`
(postprocess repair). -/
def applyInv (t : List Char) : List Char :=
  apply_text_replacements_inversedly IN_TEXT_REPLACEMENT_TABLE t

/-- Lazy regex tail `(.*?)\\\x7d` of the escaped-macro repair patterns: the
capture runs to the first occurrence of backslash-brace; `.` does not cross a
newline.  Returns the capture and the text after the closer. -/
def findCloser : List Char → Option (List Char × List Char)
  | [] => none
  | c :: cs =>
    if (['\\', '\x7d']).isPrefixOf (c :: cs) then some ([], cs.drop 1)
    else if c = '\n' then none
    else (findCloser cs).map (fun p => (c :: p.1, p.2))

/-- Greedy regex tail `([^\$\n]+)\$` of the inline-math repair: the capture
runs to the next dollar sign, failing at a newline or end of text.  Returns
the capture and the text after the closing dollar. -/
def grabDollarInner : List Char → Option (List Char × List Char)
  | [] => none
  | c :: cs =>
    if c = '$' then some ([], cs)
    else if c = '\n' then none
    else (grabDollarInner cs).map (fun p => (c :: p.1, p.2))

/-- Greedy regex tail `([^}]+)\x7d` of the `\ref` argument repair: the capture
runs to the next closing brace (newlines allowed), failing at end of text. -/
def grabRefInner : List Char → Option (List Char × List Char)
  | [] => none
  | c :: cs =>
    if c = '\x7d' then some ([], cs)
    else (grabRefInner cs).map (fun p => (c :: p.1, p.2))

/-- One attempted match of `\\<name>\\\x7b(.*?)\\\x7d` with replacement
`\<name>\x7b$1\x7d` at the head of the text (postprocess steps one and two). -/
def tryMacroRepair (name : List Char) (s : List Char) :
    Option (List Char × List Char) :=
  if ('\\' :: (name ++ ['\\', '\x7b'])).isPrefixOf s then
    match findCloser (s.drop (name.length + 3)) with
    | some (inner, rest) =>
      some ('\\' :: (name ++ ('\x7b' :: (inner ++ ['\x7d']))), rest)
    | none => none
  else none

/-- One attempted match of `\$([^\$\n]+)\$` at the head of the text, with the
`inversedly_replace` rewriter `format!("$\x7b\x7d$", inverse(inner))`. -/
def tryDollar (s : List Char) : Option (List Char × List Char) :=
  match s with
  | c0 :: c :: cs =>
    if c0 = '$' ∧ c ≠ '$' ∧ c ≠ '\n' then
      (grabDollarInner cs).map
        (fun p => ('$' :: (applyInv (c :: p.1) ++ ['$']), p.2))
    else none
  | _ => none

/-- One attempted match of `\\ref\x7b([^}]+)\x7d` at the head of the text, with the
`inversedly_replace` rewriter `format!("\\ref\x7b\x7b\x7b\x7d\x7d\x7d", inverse(inner))`. -/
def tryRefSpan (s : List Char) : Option (List Char × List Char) :=
  if (['\\', 'r', 'e', 'f', '\x7b']).isPrefixOf s then
    match s.drop 5 with
    | [] => none
    | c :: cs =>
      if c = '\x7d' then none
      else
        (grabRefInner cs).map
          (fun p => (['\\', 'r', 'e', 'f', '\x7b']
            ++ (applyInv (c :: p.1) ++ ['\x7d']), p.2))
  else none

/-- Regex `replace_all` driver: at every position try a match; on success
emit the rewriting and continue after the match, otherwise keep one character
and move on (fuelled; `s.length` fuel suffices since every match of the
patterns above is non-empty). -/
def runScan (f : List Char → Option (List Char × List Char)) :
    Nat → List Char → List Char
  | _, [] => []
  | 0, s => s
  | fuel + 1, c :: cs =>
    match f (c :: cs) with
    | some (out, rest) => out ++ runScan f fuel rest
    | none => c :: runScan f fuel cs

/-- `replace_all` over a whole text with adequate fuel. -/
def scanAll (f : List Char → Option (List Char × List Char))
    (s : List Char) : List Char :=
  runScan f s.length s

/-- Source `postprocess`: repair escaped `\cite`/`\ref` braces, then run the
inverse in-text replacement inside inline-math spans and inside `\ref`
argument spans. -/
def postprocess (s : List Char) : List Char :=
  scanAll tryRefSpan
    (scanAll tryDollar
      (scanAll (tryMacroRepair (str "ref"))
        (scanAll (tryMacroRepair (str "cite")) s)))

/-- Source `convert_markdown_to_latex`: preprocess, parse (the external
parser is a parameter, per the specification's interface contract),
translate, postprocess.  The pre-pass table order is explicit because the
source table is a `HashMap` with unspecified iteration order. -/
def convert_markdown_to_latex (preTbl : List (List Char × List Char))
    (parse : List Char → List Event) (input : List Char) :
    Option (List Char) :=
  Option.map postprocess (translate (parse (preprocessT preTbl input)))

/-- Substring test (used to state containment facts about outputs). -/
def containsSub (pat : List Char) : List Char → Bool
  | [] => pat.isEmpty
  | c :: cs => pat.isPrefixOf (c :: cs) || containsSub pat cs

/-- Count of non-overlapping occurrences of a pattern (fuelled like
`listReplaceGo`). -/
def countSubGo (pat : List Char) : Nat → List Char → Nat
  | _, [] => 0
  | 0, _ => 0
  | fuel + 1, c :: cs =>
    if !pat.isEmpty && pat.isPrefixOf (c :: cs) then
      1 + countSubGo pat fuel ((c :: cs).drop pat.length)
    else countSubGo pat fuel cs

/-- Count of non-overlapping occurrences with adequate fuel. -/
def countSub (pat s : List Char) : Nat := countSubGo pat s.length s

/-- Modelled from the spec: event sequence the external Markdown parser
(interface contract, spec §3/§6) yields for the preprocessed text
 "``` block_equationmylabel\n x=1\n```\n" — a fenced code block whose
fence-info is the text after the opening fence, with its body as text. -/
def eventsC1 : List Event :=
  [Event.start (Tag.codeBlock (CodeBlockKind.fenced (str "block_equationmylabel"))),
   Event.text (str " x=1\n"),
   Event.endE (Tag.codeBlock (CodeBlockKind.fenced (str "block_equationmylabel")))]

/-- Modelled from the spec: event sequence for the heading
 "## `c` \x7b.add-contents\x7d\n" under the heading-attributes extension — a
level-2 heading carrying the class `add-contents` whose only content is the
inline code span `c` (no plain `Text` event). -/
def eventsC3 : List Event :=
  [Event.start (Tag.heading HeadingLevel.h2 none [str "add-contents"]),
   Event.code (str "c"),
   Event.endE (Tag.heading HeadingLevel.h2 none [str "add-contents"])]

/-- Modelled from the spec: events for the one-paragraph text
 "\cite\x7b]\n" (a paragraph of plain text; any finer splitting of the text
into several `Text` events yields the same output because the in-text table
has single-character keys). -/
def eventsC4a : List Event :=
  [Event.start Tag.paragraph, Event.text (str "\\cite\x7b]"),
   Event.endE Tag.paragraph]

/-- Modelled from the spec: events for the one-paragraph text "[\x7d\n". -/
def eventsC4b : List Event :=
  [Event.start Tag.paragraph, Event.text (str "[\x7d"),
   Event.endE Tag.paragraph]

/-- Modelled from the spec: events for the one-paragraph text
 "a \cite\x7bkey\x7d b\n" (any finer splitting of the text into several `Text`
events yields the same output because the in-text table has
single-character keys). -/
def eventsC6 : List Event :=
  [Event.start Tag.paragraph, Event.text (str "a \\cite\x7bkey\x7d b"),
   Event.endE Tag.paragraph]

/-- Modelled from the spec: events for the two-row Markdown table
 "|a|b|\n|:-|-:|\n|c|d|\n" with left and right column alignment. -/
def eventsC8 : List Event :=
  [Event.start (Tag.table [Alignment.left, Alignment.right]),
   Event.start Tag.tableHead,
   Event.start Tag.tableCell, Event.text (str "a"), Event.endE Tag.tableCell,
   Event.start Tag.tableCell, Event.text (str "b"), Event.endE Tag.tableCell,
   Event.endE Tag.tableHead,
   Event.start Tag.tableRow,
   Event.start Tag.tableCell, Event.text (str "c"), Event.endE Tag.tableCell,
   Event.start Tag.tableCell, Event.text (str "d"), Event.endE Tag.tableCell,
   Event.endE Tag.tableRow,
   Event.endE (Tag.table [Alignment.left, Alignment.right])]

/-- Modelled from the spec: events for the heading "## Title\n". -/
def eventsC9a : List Event :=
  [Event.start (Tag.heading HeadingLevel.h2 none []), Event.text (str "Title"),
   Event.endE (Tag.heading HeadingLevel.h2 none [])]

/-- Modelled from the spec: events for the heading "###### X\n". -/
def eventsC9b : List Event :=
  [Event.start (Tag.heading HeadingLevel.h6 none []), Event.text (str "X"),
   Event.endE (Tag.heading HeadingLevel.h6 none [])]

/-- A permutation of `PRE_REPLACEMENT_TABLE` (its first two entries swapped):
another possible iteration order of the source `HashMap`. -/
def preOrderSwapped : List (List Char × List Char) :=
  [(str "`]", str "\x7d"), (str "[`", str "\\cite\x7b"),
   (str "[*", str "\\ref\x7b"), (str "*]", str "\x7d")]

/-- Every element of a Boolean prefix is an element of the longer list. -/
theorem mem_of_isPrefixOf : ∀ (p t : List Char), p.isPrefixOf t →
    ∀ a, a ∈ p → a ∈ t
  | [], _, _, a, ha => absurd ha (List.not_mem_nil a)
  | _ :: _, [], h, _, _ => by simp [List.isPrefixOf] at h
  | b :: p, c :: t, h, a, ha => by
    simp only [List.isPrefixOf, Bool.and_eq_true, beq_iff_eq] at h
    rcases List.mem_cons.mp ha with h1 | h1
    · exact (h1.trans h.1) ▸ List.mem_cons_self c t
    · exact List.mem_cons_of_mem c (mem_of_isPrefixOf p t h.2 a h1)

/-- A scan whose step never fires leaves the text unchanged. -/
theorem runScan_id_of_none (f : List Char → Option (List Char × List Char)) :
    ∀ (fuel : Nat) (s : List Char), (∀ t, t <:+ s → f t = none) →
    runScan f fuel s = s
  | 0, [], _ => rfl
  | 0, _ :: _, _ => rfl
  | _ + 1, [], _ => rfl
  | fuel + 1, c :: cs, h => by
    simp only [runScan, h (c :: cs) List.suffix_rfl]
    rw [runScan_id_of_none f fuel cs
      (fun t ht => h t (ht.trans (List.suffix_cons c cs)))]

/-- A scan whose step always rewrites a match to itself leaves the text
unchanged. -/
theorem runScan_keep (f : List Char → Option (List Char × List Char)) :
    ∀ (fuel : Nat) (s : List Char),
    (∀ t, t <:+ s →
      f t = none ∨ ∃ out rest, f t = some (out, rest) ∧ out ++ rest = t) →
    runScan f fuel s = s
  | 0, [], _ => rfl
  | 0, _ :: _, _ => rfl
  | _ + 1, [], _ => rfl
  | fuel + 1, c :: cs, h => by
    rcases h (c :: cs) List.suffix_rfl with hn | ⟨out, rest, hf, heq⟩
    · simp only [runScan, hn]
      rw [runScan_keep f fuel cs
        (fun t ht => h t (ht.trans (List.suffix_cons c cs)))]
    · simp only [runScan, hf]
      have hsuf : rest <:+ c :: cs := heq ▸ ⟨out, rfl⟩
      rw [runScan_keep f fuel rest (fun t ht => h t (ht.trans hsuf))]
      exact heq

/-- A replacement whose pattern contains a character absent from the text is
the identity. -/
theorem listReplaceGo_id_of_mem (pat repl : List Char) (c0 : Char)
    (hc0 : c0 ∈ pat) :
    ∀ (fuel : Nat) (t : List Char), c0 ∉ t → listReplaceGo pat repl fuel t = t
  | 0, [], _ => rfl
  | 0, _ :: _, _ => rfl
  | _ + 1, [], _ => rfl
  | fuel + 1, c :: cs, h => by
    have hp : pat.isPrefixOf (c :: cs) = false := by
      cases hb : pat.isPrefixOf (c :: cs)
      · rfl
      · exact absurd (mem_of_isPrefixOf pat (c :: cs) hb c0 hc0) h
    simp only [listReplaceGo, hp, Bool.and_false, Bool.false_eq_true,
      if_false]
    rw [listReplaceGo_id_of_mem pat repl c0 hc0 fuel cs
      (fun hm => h (List.mem_cons_of_mem c hm))]

/-- Wrapper of the previous lemma at the exported fuel. -/
theorem listReplace_id_of_mem (pat repl : List Char) (c0 : Char)
    (hc0 : c0 ∈ pat) (t : List Char) (h : c0 ∉ t) :
    listReplace pat repl t = t :=
  listReplaceGo_id_of_mem pat repl c0 hc0 t.length t h

/-- An inverse-replacement fold whose every pattern contains a backslash is
the identity on backslash-free text. -/
theorem foldl_inv_id : ∀ (tbl : List (List Char × List Char)) (t : List Char),
    (∀ e ∈ tbl, '\\' ∈ e.2) → '\\' ∉ t →
    List.foldl (fun acc p => listReplace p.2 p.1 acc) t tbl = t
  | [], _, _, _ => rfl
  | e :: tbl, t, he, ht => by
    simp only [List.foldl_cons]
    rw [listReplace_id_of_mem e.2 e.1 '\\' (he e (List.mem_cons_self e tbl)) t ht]
    exact foldl_inv_id tbl t (fun x hx => he x (List.mem_cons_of_mem e hx)) ht

/-- The inverse in-text replacement is the identity on backslash-free text. -/
theorem applyInv_noBS (t : List Char) (h : '\\' ∉ t) : applyInv t = t :=
  foldl_inv_id IN_TEXT_REPLACEMENT_TABLE t (by decide) h

/-- Shape of a successful inline-math capture: the input splits as the
capture, the closing dollar, and the remainder. -/
theorem grabDollarInner_eq : ∀ (s : List Char) (p : List Char × List Char),
    grabDollarInner s = some p → s = p.1 ++ '$' :: p.2
  | [], _, h => Option.noConfusion h
  | c :: cs, p, h => by
    by_cases h1 : c = '$'
    · simp only [grabDollarInner, if_pos h1] at h
      cases h
      simpa using h1
    · by_cases h2 : c = '\n'
      · simp [grabDollarInner, h1, h2] at h
      · simp only [grabDollarInner, if_neg h1, if_neg h2] at h
        cases hg : grabDollarInner cs with
        | none => rw [hg] at h; simp at h
        | some q =>
          rw [hg] at h
          have h' : some (c :: q.1, q.2) = some p := h
          cases h'
          have hq := grabDollarInner_eq cs q hg
          simp [hq]

/-- The escaped-macro repair step never fires on backslash-free text. -/
theorem tryMacroRepair_none (name t : List Char) (h : '\\' ∉ t) :
    tryMacroRepair name t = none := by
  have hp : ('\\' :: (name ++ ['\\', '\x7b'])).isPrefixOf t = false := by
    cases hb : ('\\' :: (name ++ ['\\', '\x7b'])).isPrefixOf t
    · rfl
    · exact absurd
        (mem_of_isPrefixOf _ t hb '\\' (List.mem_cons_self _ _)) h
  simp [tryMacroRepair, hp]

/-- The reference-span repair step never fires on backslash-free text. -/
theorem tryRefSpan_none (t : List Char) (h : '\\' ∉ t) :
    tryRefSpan t = none := by
  have hp : (['\\', 'r', 'e', 'f', '\x7b']).isPrefixOf t = false := by
    cases hb : (['\\', 'r', 'e', 'f', '\x7b']).isPrefixOf t
    · rfl
    · exact absurd
        (mem_of_isPrefixOf _ t hb '\\' (List.mem_cons_self _ _)) h
  simp [tryRefSpan, hp]

/-- On backslash-free text the inline-math repair step either fails or
rewrites its match to itself. -/
theorem tryDollar_keep (t : List Char) (h : '\\' ∉ t) :
    tryDollar t = none ∨
    ∃ out rest, tryDollar t = some (out, rest) ∧ out ++ rest = t := by
  match t, h with
  | [], _ => exact Or.inl rfl
  | [c], _ => exact Or.inl rfl
  | c0 :: c :: cs, h =>
    by_cases hcond : c0 = '$' ∧ c ≠ '$' ∧ c ≠ '\n'
    · cases hg : grabDollarInner cs with
      | none => exact Or.inl (by simp [tryDollar, hcond, hg])
      | some q =>
        right
        refine ⟨'$' :: (applyInv (c :: q.1) ++ ['$']), q.2,
          by simp [tryDollar, hcond, hg], ?_⟩
        have hcs := grabDollarInner_eq cs q hg
        have hin : '\\' ∉ c :: q.1 := by
          intro hm
          apply h
          rcases List.mem_cons.mp hm with h1 | h1
          · rw [h1]
            exact List.mem_cons_of_mem c0 (List.mem_cons_self c cs)
          · refine List.mem_cons_of_mem c0 (List.mem_cons_of_mem c ?_)
            rw [hcs]
            exact List.mem_append_left _ h1
        rw [applyInv_noBS _ hin, hcond.1, hcs]
        simp
    · exact Or.inl (by simp [tryDollar, hcond])

/-- The postprocessor is the identity on backslash-free text. -/
theorem postprocess_id_noBS (s : List Char) (h : '\\' ∉ s) :
    postprocess s = s := by
  have hsub : ∀ t, t <:+ s → '\\' ∉ t := fun t ht hm => h (ht.subset hm)
  have h1 : scanAll (tryMacroRepair (str "cite")) s = s :=
    runScan_id_of_none _ s.length s
      (fun t ht => tryMacroRepair_none _ t (hsub t ht))
  have h2 : scanAll (tryMacroRepair (str "ref")) s = s :=
    runScan_id_of_none _ s.length s
      (fun t ht => tryMacroRepair_none _ t (hsub t ht))
  have h3 : scanAll tryDollar s = s :=
    runScan_keep _ s.length s (fun t ht => tryDollar_keep t (hsub t ht))
  have h4 : scanAll tryRefSpan s = s :=
    runScan_id_of_none _ s.length s
      (fun t ht => tryRefSpan_none t (hsub t ht))
  simp only [postprocess]
  rw [h1, h2, h3, h4]

/-- Pointwise congruence for the character-level flat map. -/
theorem fm_congr (f g : Char → List Char) (h : ∀ c, f c = g c) :
    ∀ s, fm f s = fm g s
  | [] => rfl
  | c :: cs => by simp only [fm, h c, fm_congr f g h cs]

/-- The singleton flat map is the identity. -/
theorem fm_id : ∀ (s : List Char), fm (fun d => [d]) s = s
  | [] => rfl
  | c :: cs => by simp [fm, fm_id cs]

/-- The flat map distributes over append. -/
theorem fm_append (f : Char → List Char) :
    ∀ (xs ys : List Char), fm f (xs ++ ys) = fm f xs ++ fm f ys
  | [], _ => rfl
  | x :: xs, ys => by simp [fm, fm_append f xs ys]

/-- Composition of two flat maps. -/
theorem fm_fm (f g : Char → List Char) :
    ∀ s, fm g (fm f s) = fm (fun c => fm g (f c)) s
  | [] => rfl
  | c :: cs => by simp [fm, fm_append, fm_fm f g cs]

/-- Replacement of a single-character pattern is a character-level flat
map. -/
theorem listReplaceGo_singleton (a : Char) (q : List Char) :
    ∀ (fuel : Nat) (s : List Char), s.length ≤ fuel →
    listReplaceGo [a] q fuel s = fm (fun d => if d = a then q else [d]) s
  | fuel, [], _ => by cases fuel <;> rfl
  | fuel + 1, c :: cs, hlen => by
    have hlen' : cs.length ≤ fuel := Nat.le_of_succ_le_succ (by simpa using hlen)
    by_cases hac : a = c
    · subst hac
      have hc : (!([a] : List Char).isEmpty
          && ([a] : List Char).isPrefixOf (a :: cs)) = true := by
        simp [List.isPrefixOf]
      simp only [listReplaceGo, hc, if_true]
      have hdrop : List.drop ([a] : List Char).length (a :: cs) = cs := rfl
      rw [hdrop, listReplaceGo_singleton a q fuel cs hlen']
      simp [fm]
    · have hc : (!([a] : List Char).isEmpty
          && ([a] : List Char).isPrefixOf (c :: cs)) = false := by
        simp [List.isPrefixOf, hac]
      simp only [listReplaceGo, hc, Bool.false_eq_true, if_false]
      rw [listReplaceGo_singleton a q fuel cs hlen']
      simp [fm, Ne.symm hac]

/-- Wrapper of the previous lemma at the exported fuel. -/
theorem listReplace_singleton (a : Char) (q : List Char) (s : List Char) :
    listReplace [a] q s = fm (fun d => if d = a then q else [d]) s :=
  listReplaceGo_singleton a q s.length s le_rfl

/-- Unfolding one table entry of `apply_text_replacements`. -/
theorem apply_cons (e : List Char × List Char)
    (tbl : List (List Char × List Char)) (s : List Char) :
    apply_text_replacements (e :: tbl) s =
      apply_text_replacements tbl (listReplace e.1 e.2 s) := rfl

/-- Applying the in-text entries of a duplicate-free, backslash-free key
list in any order computes the pointwise simultaneous escaping. -/
theorem applyRepl_map_entries : ∀ (l : List Char), l.Nodup → '\\' ∉ l →
    ∀ (s : List Char),
    apply_text_replacements (l.map inTextEntry) s = fm (escOf l) s
  | [], _, _, s => by
    refine Eq.symm ((fm_congr (escOf []) (fun d => [d])
      (fun d => by simp [escOf]) s).trans (fm_id s))
  | c :: l', hnd, hbs, s => by
    rw [List.map_cons, apply_cons]
    simp only [inTextEntry]
    rw [listReplace_singleton c ['\\', c] s]
    rw [applyRepl_map_entries l' (List.Nodup.of_cons hnd)
      (fun hm => hbs (List.mem_cons_of_mem c hm)) _]
    rw [fm_fm]
    refine fm_congr _ _ (fun d => ?_) s
    by_cases hdc : d = c
    · subst hdc
      have hdl : d ∉ l' := (List.nodup_cons.mp hnd).1
      have hbl : '\\' ∉ l' := fun hm => hbs (List.mem_cons_of_mem d hm)
      simp [fm, escOf, hdl, hbl]
    · simp [fm, escOf, List.mem_cons, hdc]

/-- Escaping helper for unterminated-equation inputs: the body collection
of the preprocessor consumes everything when no closing line exists. -/
theorem collectEquation_of_no_close : ∀ (ls : List (List Char)),
    (∀ l ∈ ls, trimChars l ≠ str "$$") →
    collectEquation ls = (joinNl ls, [])
  | [], _ => rfl
  | l :: ls, h => by
    simp only [collectEquation, joinNl]
    rw [if_neg (h l (List.mem_cons_self l ls))]
    rw [collectEquation_of_no_close ls
      (fun x hx => h x (List.mem_cons_of_mem l hx))]

set_option maxRecDepth 8000

/-- C1: the claim says the display-equation block `$$ mylabel`, ` x=1`,
`$$` yields an equation environment containing `x=1` and a label containing
`mylabel`.  The code is wrong: the non-empty-label fence is built with a
Rust `format!` whose `\x7b\x7d` is a placeholder, so the fence-info is
`block_equationmylabel` without braces, the translator's
`block_equation\x7b...\x7d` regex does not match it, and the block is rendered as
a plain `lstlisting` with no equation environment and no label.  The theorem
evaluates the pipeline at the failing input. -/
theorem claim1_labelled_equation_block_bug :
    preprocess (str "$$ mylabel\n x=1\n$$\n")
      = str "``` block_equationmylabel\n x=1\n```\n" ∧
    convert_markdown_to_latex PRE_REPLACEMENT_TABLE (fun _ => eventsC1)
      (str "$$ mylabel\n x=1\n$$\n")
      = some (str "\\begin\x7blstlisting\x7d\n x=1\n\\end\x7blstlisting\x7d\n\n") ∧
    containsSub (str "\\begin\x7bequation\x7d")
      (str "\\begin\x7blstlisting\x7d\n x=1\n\\end\x7blstlisting\x7d\n\n") = false ∧
    containsSub (str "mylabel")
      (str "\\begin\x7blstlisting\x7d\n x=1\n\\end\x7blstlisting\x7d\n\n") = false := by
  refine ⟨by decide, by decide, by decide, by decide⟩

/-- C2: the claim says that after the closing fence of a raw-LaTeX block the
remaining lines are processed normally (pre-pass table applied).  The code
is wrong: the copy loop never breaks at the closing fence, so every line to
the end of the input is copied verbatim; the citation shorthand on the last
line survives unrewritten although normal processing would turn it into
`\cite\x7bk\x7d`. -/
theorem claim2_raw_fence_copies_to_eof :
    preprocess (str "```latex raw\nbody\n```\n[`k`]\n")
      = str "```latex raw\nbody\n```\n[`k`]\n" ∧
    apply_text_replacements PRE_REPLACEMENT_TABLE (str "[`k`]")
      = str "\\cite\x7bk\x7d" ∧
    containsSub (str "\\cite\x7bk\x7d")
      (preprocess (str "```latex raw\nbody\n```\n[`k`]\n")) = false := by
  refine ⟨by decide, by decide, by decide⟩

/-- C3: the claim says the pipeline is total and never panics, including on
headings carrying the force-TOC marker class with any content.  The code is
wrong: for a heading with class `add-contents` whose content produces no
plain `Text` event (here an inline code span), `heading_content_string`
stays `None` and the translator's `unwrap` at heading end panics (modelled
as `none`). -/
theorem claim3_totality_bug :
    preprocess (str "## `c` \x7b.add-contents\x7d\n")
      = str "## `c` \x7b.add-contents\x7d\n" ∧
    convert_markdown_to_latex PRE_REPLACEMENT_TABLE (fun _ => eventsC3)
      (str "## `c` \x7b.add-contents\x7d\n") = none := by
  refine ⟨by decide, by decide⟩

/-- C4 (counterexample): the claim says any two runs, under any iteration
order of the two replacement tables, yield identical output.  False: on the
input `[\x60]` the pre-pass table's two overlapping keys give different results
under two iteration orders of the table (both orders are possible for the
source `HashMap` across processes), so the pipeline outputs differ. -/
theorem claim4_order_dependence_cx :
    preOrderSwapped.Perm PRE_REPLACEMENT_TABLE ∧
    convert_markdown_to_latex PRE_REPLACEMENT_TABLE (fun _ => eventsC4a)
      (str "[`]\n")
      ≠ convert_markdown_to_latex preOrderSwapped (fun _ => eventsC4b)
      (str "[`]\n") := by
  constructor
  · unfold preOrderSwapped PRE_REPLACEMENT_TABLE
    exact List.Perm.swap _ _ _
  · decide

/-- C4 (amended): with the pre-pass table order fixed, the pipeline is a
pure function of its input, and the iteration order of the in-text table
never affects the result: applying the in-text entries of any permutation
of the key set computes the same replacement on every text; only the
pre-pass table's order can change the output (as the counterexample input
`[\x60]` shows). -/
theorem claim4_intext_order_invariance (l : List Char)
    (hl : l.Perm inTextKeys) (s : List Char) :
    apply_text_replacements (l.map inTextEntry) s
      = apply_text_replacements IN_TEXT_REPLACEMENT_TABLE s := by
  have htbl : IN_TEXT_REPLACEMENT_TABLE = inTextKeys.map inTextEntry := by
    decide
  have hnd : l.Nodup := (List.Perm.nodup_iff hl).mpr (by decide)
  have hbs : '\\' ∉ l := fun hm =>
    (by decide : '\\' ∉ inTextKeys) (hl.mem_iff.mp hm)
  rw [htbl, applyRepl_map_entries l hnd hbs s,
    applyRepl_map_entries inTextKeys (by decide) (by decide) s]
  refine fm_congr _ _ (fun d => ?_) s
  have hmem : (d ∈ l) = (d ∈ inTextKeys) := propext hl.mem_iff
  simp [escOf, hmem]

/-- Witness for the amended C4 at a concrete permutation and text. -/
theorem claim4_intext_order_invariance_witness :
    (['%', '&', '_', '#', '\x7b', '\x7d'] : List Char).Perm inTextKeys ∧
    apply_text_replacements
        ((['%', '&', '_', '#', '\x7b', '\x7d'] : List Char).map inTextEntry)
        (str "a&b\x7bc_d")
      = apply_text_replacements IN_TEXT_REPLACEMENT_TABLE (str "a&b\x7bc_d") :=
  ⟨List.Perm.swap '&' '%' ['_', '#', '\x7b', '\x7d'],
   claim4_intext_order_invariance ['%', '&', '_', '#', '\x7b', '\x7d']
     (List.Perm.swap '&' '%' ['_', '#', '\x7b', '\x7d']) (str "a&b\x7bc_d")⟩

/-- C5 (counterexample): the claim says the postprocessor is idempotent on
every string.  False at `$a\\&b$`: the first pass turns it into `$a\&b$`
(one inverse replacement of `\&`), and a second pass changes it again to
`$a&b$`. -/
theorem claim5_not_idempotent_cx :
    postprocess (postprocess (str "$a\\\\&b$"))
      ≠ postprocess (str "$a\\\\&b$") := by decide

/-- C5 (amended): the postprocessor is the identity — hence idempotent — on
every backslash-free string; idempotence fails in general (see the
counterexample `$a\\&b$`). -/
theorem claim5_idempotent_no_backslash (s : List Char) (h : '\\' ∉ s) :
    postprocess (postprocess s) = postprocess s := by
  rw [postprocess_id_noBS s h]
  exact postprocess_id_noBS s h

/-- Witness for the amended C5 at a concrete backslash-free string. -/
theorem claim5_idempotent_no_backslash_witness :
    '\\' ∉ str "$a&b$ c%d" ∧
    postprocess (postprocess (str "$a&b$ c%d")) = postprocess (str "$a&b$ c%d") :=
  ⟨by decide, claim5_idempotent_no_backslash (str "$a&b$ c%d") (by decide)⟩

/-- C6: a citation shorthand in prose survives the whole pipeline: the
pre-pass rewrites `` [`key`] `` to `\cite\x7bkey\x7d`, the in-text escaping escapes
its braces, and the postprocess repair restores them, so the final output
contains exactly `\cite\x7bkey\x7d` (and not the escaped form). -/
theorem claim6_citation_pipeline (parse : List Char → List Event)
    (h : parse (str "a \\cite\x7bkey\x7d b\n") = eventsC6) :
    preprocess (str "a [`key`] b\n") = str "a \\cite\x7bkey\x7d b\n" ∧
    convert_markdown_to_latex PRE_REPLACEMENT_TABLE parse (str "a [`key`] b\n")
      = some (str "a \\cite\x7bkey\x7d b\n\n") ∧
    containsSub (str "\\cite\x7bkey\x7d") (str "a \\cite\x7bkey\x7d b\n\n") = true ∧
    containsSub (str "\\cite\\\x7bkey\\\x7d") (str "a \\cite\x7bkey\x7d b\n\n") = false := by
  refine ⟨by decide, ?_, by decide, by decide⟩
  have hpre : preprocessT PRE_REPLACEMENT_TABLE (str "a [`key`] b\n")
      = str "a \\cite\x7bkey\x7d b\n" := by decide
  simp only [convert_markdown_to_latex, hpre, h]
  decide

/-- Witness for C6 with a parse function realising the contract events. -/
theorem claim6_citation_pipeline_witness :
    (fun _ => eventsC6 : List Char → List Event) (str "a \\cite\x7bkey\x7d b\n")
      = eventsC6 ∧
    convert_markdown_to_latex PRE_REPLACEMENT_TABLE (fun _ => eventsC6)
      (str "a [`key`] b\n") = some (str "a \\cite\x7bkey\x7d b\n\n") :=
  ⟨rfl, (claim6_citation_pipeline (fun _ => eventsC6) rfl).2.1⟩

/-- C7 (counterexample): the claim says the inverse in-text replacement is
applied to the argument span of `\cite\x7b...\x7d` as well as `\ref\x7b...\x7d`.  False:
the postprocessor only rewrites `$...$` spans and `\ref` arguments, so
`\cite\x7ba\_b\x7d` is left unchanged instead of becoming `\cite\x7ba_b\x7d`. -/
theorem claim7_cite_argument_not_repaired_cx :
    postprocess (str "\\cite\x7ba\\_b\x7d") = str "\\cite\x7ba\\_b\x7d" ∧
    postprocess (str "\\cite\x7ba\\_b\x7d") ≠ str "\\cite\x7ba_b\x7d" := by
  refine ⟨by decide, by decide⟩

/-- C7 (amended): the inverse in-text replacement is applied to inline-math
spans and to `\ref` argument spans, re-wrapped in their original delimiters;
`\cite` argument spans are not repaired (shown on representative inputs). -/
theorem claim7_repair_spans_amended :
    postprocess (str "$a\\_b$") = str "$a_b$" ∧
    postprocess (str "$x\\&y\\%z$") = str "$x&y%z$" ∧
    postprocess (str "\\ref\x7ba\\_b\x7d") = str "\\ref\x7ba_b\x7d" ∧
    postprocess (str "\\cite\x7ba\\_b\x7d") = str "\\cite\x7ba\\_b\x7d" := by
  refine ⟨by decide, by decide, by decide, by decide⟩

/-- C8: a 2-column table with left and right alignments and one header plus
one data row yields a `tabularx` environment whose column specification is
left-justified then right-justified, with exactly one `&` separator per row
and a rule after the header row and after the data row. -/
theorem claim8_table_translation (parse : List Char → List Event)
    (h : parse (str "|a|b|\n|:-|-:|\n|c|d|\n") = eventsC8) :
    convert_markdown_to_latex PRE_REPLACEMENT_TABLE parse
      (str "|a|b|\n|:-|-:|\n|c|d|\n")
      = some (str "\\begin\x7btabularx\x7d\x7b\\textwidth\x7d\x7b|>\x7b\\raggedright\\arraybackslash\x7dX|>\x7b\\raggedleft\\arraybackslash\x7dX|\x7d \\hline\na & b \\\\ \\hline\nc & d \\\\ \\hline\n\\end\x7btabularx\x7d\n\n") ∧
    containsSub
      (str "\x7b|>\x7b\\raggedright\\arraybackslash\x7dX|>\x7b\\raggedleft\\arraybackslash\x7dX|\x7d")
      (str "\\begin\x7btabularx\x7d\x7b\\textwidth\x7d\x7b|>\x7b\\raggedright\\arraybackslash\x7dX|>\x7b\\raggedleft\\arraybackslash\x7dX|\x7d \\hline\na & b \\\\ \\hline\nc & d \\\\ \\hline\n\\end\x7btabularx\x7d\n\n") = true ∧
    (str "\\begin\x7btabularx\x7d\x7b\\textwidth\x7d\x7b|>\x7b\\raggedright\\arraybackslash\x7dX|>\x7b\\raggedleft\\arraybackslash\x7dX|\x7d \\hline\na & b \\\\ \\hline\nc & d \\\\ \\hline\n\\end\x7btabularx\x7d\n\n").count '&' = 2 ∧
    countSub (str " \\\\ \\hline\n")
      (str "\\begin\x7btabularx\x7d\x7b\\textwidth\x7d\x7b|>\x7b\\raggedright\\arraybackslash\x7dX|>\x7b\\raggedleft\\arraybackslash\x7dX|\x7d \\hline\na & b \\\\ \\hline\nc & d \\\\ \\hline\n\\end\x7btabularx\x7d\n\n") = 2 := by
    refine ⟨?_, by decide, by decide, by decide⟩
    have hpre : preprocessT PRE_REPLACEMENT_TABLE (str "|a|b|\n|:-|-:|\n|c|d|\n")
        = str "|a|b|\n|:-|-:|\n|c|d|\n" := by decide
    simp only [convert_markdown_to_latex, hpre, h]
    decide

/-- Witness for C8 with a parse function realising the contract events. -/
theorem claim8_table_translation_witness :
    (fun _ => eventsC8 : List Char → List Event) (str "|a|b|\n|:-|-:|\n|c|d|\n")
      = eventsC8 ∧
    convert_markdown_to_latex PRE_REPLACEMENT_TABLE (fun _ => eventsC8)
      (str "|a|b|\n|:-|-:|\n|c|d|\n")
      = some (str "\\begin\x7btabularx\x7d\x7b\\textwidth\x7d\x7b|>\x7b\\raggedright\\arraybackslash\x7dX|>\x7b\\raggedleft\\arraybackslash\x7dX|\x7d \\hline\na & b \\\\ \\hline\nc & d \\\\ \\hline\n\\end\x7btabularx\x7d\n\n") :=
  ⟨rfl, (claim8_table_translation (fun _ => eventsC8) rfl).1⟩

/-- C9: the heading `## Title` renders as `\section\x7bTitle\x7d` followed by a
newline, and a level-6 heading renders through the bold-text fallback
`\textbf\x7b...\x7d` with no sectioning command. -/
theorem claim9_heading_levels (p1 p2 : List Char → List Event)
    (h1 : p1 (str "## Title\n") = eventsC9a)
    (h2 : p2 (str "###### X\n") = eventsC9b) :
    convert_markdown_to_latex PRE_REPLACEMENT_TABLE p1 (str "## Title\n")
      = some (str "\\section\x7bTitle\x7d\n\n") ∧
    containsSub (str "\\section\x7bTitle\x7d\n") (str "\\section\x7bTitle\x7d\n\n") = true ∧
    convert_markdown_to_latex PRE_REPLACEMENT_TABLE p2 (str "###### X\n")
      = some (str "\\textbf\x7bX\x7d\n\n") ∧
    containsSub (str "\\textbf\x7bX\x7d") (str "\\textbf\x7bX\x7d\n\n") = true ∧
    containsSub (str "\\section") (str "\\textbf\x7bX\x7d\n\n") = false ∧
    containsSub (str "\\chapter") (str "\\textbf\x7bX\x7d\n\n") = false := by
  refine ⟨?_, by decide, ?_, by decide, by decide, by decide⟩
  · have hpre : preprocessT PRE_REPLACEMENT_TABLE (str "## Title\n")
        = str "## Title\n" := by decide
    simp only [convert_markdown_to_latex, hpre, h1]
    decide
  · have hpre : preprocessT PRE_REPLACEMENT_TABLE (str "###### X\n")
        = str "###### X\n" := by decide
    simp only [convert_markdown_to_latex, hpre, h2]
    decide

/-- Witness for C9 with parse functions realising the contract events. -/
theorem claim9_heading_levels_witness :
    (fun _ => eventsC9a : List Char → List Event) (str "## Title\n") = eventsC9a ∧
    (fun _ => eventsC9b : List Char → List Event) (str "###### X\n") = eventsC9b ∧
    convert_markdown_to_latex PRE_REPLACEMENT_TABLE (fun _ => eventsC9a)
      (str "## Title\n") = some (str "\\section\x7bTitle\x7d\n\n") ∧
    convert_markdown_to_latex PRE_REPLACEMENT_TABLE (fun _ => eventsC9b)
      (str "###### X\n") = some (str "\\textbf\x7bX\x7d\n\n") :=
  ⟨rfl, rfl,
   (claim9_heading_levels (fun _ => eventsC9a) (fun _ => eventsC9b) rfl rfl).1,
   (claim9_heading_levels (fun _ => eventsC9a) (fun _ => eventsC9b) rfl rfl).2.2.1⟩

/-- C10: when a display-equation opener is never followed by a closing `$$`
line, the preprocessor consumes every remaining line as the equation body
and still emits a complete fenced block — opening fence (with
`block_equation` fence-info), captured body, closing fence — so output is
always produced and the fence is always closed. -/
theorem claim10_unterminated_equation_block
    (tbl : List (List Char × List Char)) (fuel : Nat)
    (line : List Char) (rest : List (List Char))
    (hfuel : rest.length < fuel)
    (hopen : (str "$$").isPrefixOf (trimChars line))
    (hnc : ∀ l ∈ rest, trimChars l ≠ str "$$") :
    preprocessGo tbl fuel (line :: rest) =
      (if trimChars (trimStartMatches (str "$$") (trimChars line)) = [] then
        str "``` block_equation\x7b\x7d\n"
       else (str "``` block_equation"
         ++ trimChars (trimStartMatches (str "$$") (trimChars line))) ++ ['\n'])
      ++ (joinNl rest ++ str "```\n") := by
  cases fuel with
  | zero => omega
  | succ f =>
    simp only [preprocessGo, hopen, if_true]
    rw [collectEquation_of_no_close rest hnc]
    have hnil : preprocessGo tbl f [] = [] := by cases f <;> rfl
    simp [hnil, List.append_assoc]

/-- Witness for C10 at a concrete unterminated input. -/
theorem claim10_unterminated_equation_block_witness :
    ([str " x"] : List (List Char)).length < 2 ∧
    preprocessGo PRE_REPLACEMENT_TABLE 2 [str "$$ lab", str " x"]
      = str "``` block_equationlab\n x\n```\n" := by
  refine ⟨by decide, ?_⟩
  have h := claim10_unterminated_equation_block PRE_REPLACEMENT_TABLE 2
    (str "$$ lab") [str " x"] (by decide) (by decide) (by decide)
  exact h.trans (by decide)

end MdLatex
